import Mathlib

/-!
Verification of the normalization/canonicalization core of the
ai-change-watcher repository (src/normalizers.py, src/generate_rss.py).

The Python code is shallowly embedded: pure string functions become Lean
functions on `String` / `List Char`; the external regex engine (`re`),
XML parser (`xml.etree.ElementTree`) and YAML parser (`yaml.safe_load`)
are modelled as explicit oracle parameters, while everything the
repository itself computes is translated function by function.
Python strings are sequences of code points, so `String.data : List Char`
is the faithful carrier and slicing/length act on it.
-/

/-! ### Python string primitives -/

/-- Python truthiness-based `a or b` for strings: `a` if non-empty, else `b`. -/
def pyOr (a b : String) : String := if a = "" then b else a

/-- Characters matched by Python's `\s` (and stripped by `str.strip()`):
ASCII whitespace plus the Unicode whitespace code points. -/
def pyIsSpace (c : Char) : Bool :=
  c = ' ' || c = '\t' || c = '\n' || c = '\r' || c = '\x0b' || c = '\x0c' ||
  c = '\x1c' || c = '\x1d' || c = '\x1e' || c = '\x1f' || c = '\x85' || c = '\xa0' ||
  c = '\u1680' || (0x2000 ≤ c.toNat && c.toNat ≤ 0x200a) ||
  c = '\u2028' || c = '\u2029' || c = '\u202f' || c = '\u205f' || c = '\u3000'

/-- `re.sub(r"\s+", " ", s)`: each maximal run of whitespace becomes one space. -/
def collapseWs : List Char → List Char
  | [] => []
  | [c] => if pyIsSpace c then [' '] else [c]
  | c :: d :: rest =>
    if pyIsSpace c then
      if pyIsSpace d then collapseWs (d :: rest)
      else ' ' :: collapseWs (d :: rest)
    else c :: collapseWs (d :: rest)

/-- Python `str.strip()` on a list of code points. -/
def pyStripL (l : List Char) : List Char :=
  ((l.dropWhile pyIsSpace).reverse.dropWhile pyIsSpace).reverse

/-- Python `str.strip()`. -/
def pyStrip (s : String) : String := ⟨pyStripL s.data⟩

/-- Python `"sep".join(lines)`. -/
def joinSepS (sep : String) : List String → String
  | [] => ""
  | [x] => x
  | x :: xs => x ++ sep ++ joinSepS sep xs

/-! ### Code-point lexicographic string order (Python string comparison) -/

/-- Lexicographic `≤` on code-point sequences; Python compares strings this way. -/
def lexLe : List Char → List Char → Bool
  | [], _ => true
  | _ :: _, [] => false
  | a :: as, b :: bs =>
    if a < b then true else if b < a then false else lexLe as bs

/-- Python string `≤` (code-point lexicographic). -/
def strLe (s t : String) : Bool := lexLe s.data t.data

theorem lexLe_total : ∀ a b : List Char, lexLe a b = true ∨ lexLe b a = true
  | [], _ => Or.inl rfl
  | _ :: _, [] => Or.inr rfl
  | a :: as, b :: bs => by
    simp only [lexLe]
    rcases lt_trichotomy a b with h | h | h
    · simp [h]
    · subst h
      simpa [lt_irrefl] using lexLe_total as bs
    · simp [h, lt_asymm h]

theorem lexLe_trans : ∀ a b c : List Char,
    lexLe a b = true → lexLe b c = true → lexLe a c = true
  | [], _, _ => by intros; rfl
  | a :: as, [], c => by simp [lexLe]
  | a :: as, b :: bs, [] => by simp [lexLe]
  | a :: as, b :: bs, c :: cs => by
    simp only [lexLe]
    intro h1 h2
    rcases lt_trichotomy a b with hab | hab | hab
    · rcases lt_trichotomy b c with hbc | hbc | hbc
      · simp [lt_trans hab hbc]
      · subst hbc; simp [hab]
      · simp [hbc, lt_asymm hbc] at h2
    · subst hab
      rcases lt_trichotomy a c with hac | hac | hac
      · simp [hac]
      · subst hac
        simp only [lt_irrefl, if_false] at h1 h2 ⊢
        exact lexLe_trans as bs cs h1 h2
      · simp [hac, lt_asymm hac] at h2
    · simp [hab, lt_asymm hab] at h1

theorem lexLe_antisymm : ∀ a b : List Char, lexLe a b = true → lexLe b a = true → a = b
  | [], [] => by intros; rfl
  | [], _ :: _ => by simp [lexLe]
  | _ :: _, [] => by simp [lexLe]
  | a :: as, b :: bs => by
    simp only [lexLe]
    intro h1 h2
    rcases lt_trichotomy a b with hab | hab | hab
    · simp [hab, lt_asymm hab] at h2
    · subst hab
      simp only [lt_irrefl, if_false] at h1 h2
      rw [lexLe_antisymm as bs h1 h2]
    · simp [hab, lt_asymm hab] at h1

theorem strLe_total (s t : String) : strLe s t = true ∨ strLe t s = true :=
  lexLe_total s.data t.data

theorem strLe_trans {s t u : String} (h1 : strLe s t = true) (h2 : strLe t u = true) :
    strLe s u = true :=
  lexLe_trans s.data t.data u.data h1 h2

theorem strLe_antisymm {s t : String} (h1 : strLe s t = true) (h2 : strLe t s = true) :
    s = t := by
  cases s with
  | mk ds =>
    cases t with
    | mk dt =>
      exact congrArg String.mk (lexLe_antisymm ds dt h1 h2)

/-! ### Stable sorting by a key, modelling Python's `list.sort(key=...)`.

Python's sort is stable; a stable sort producing a `kle`-sorted permutation is
extensionally unique, and `List.insertionSort` is exactly such a sort. -/

section KeySort

variable {α κ : Type} (key : α → κ) (kle : κ → κ → Bool)

/-- `l.sort(key=key)` for a total preorder `kle` on keys (stable). -/
def sortByKey (l : List α) : List α :=
  List.insertionSort (fun a b => kle (key a) (key b) = true) l

theorem sortByKey_perm (l : List α) : (sortByKey key kle l).Perm l :=
  List.perm_insertionSort _ l

theorem sortByKey_sorted
    (total : ∀ x y, kle x y = true ∨ kle y x = true)
    (trans : ∀ x y z, kle x y = true → kle y z = true → kle x z = true)
    (l : List α) :
    (sortByKey key kle l).Pairwise (fun a b => kle (key a) (key b) = true) := by
  haveI : IsTotal α (fun a b => kle (key a) (key b) = true) := ⟨fun a b => total _ _⟩
  haveI : IsTrans α (fun a b => kle (key a) (key b) = true) := ⟨fun a b c => trans _ _ _⟩
  exact List.sorted_insertionSort _ l

/-- Two lists that are permutations of each other and have pairwise distinct
keys sort to the same list: the key order is then a total order on the items. -/
theorem sortByKey_eq_of_perm
    (total : ∀ x y, kle x y = true ∨ kle y x = true)
    (trans : ∀ x y z, kle x y = true → kle y z = true → kle x z = true)
    (anti : ∀ x y, kle x y = true → kle y x = true → x = y)
    {l₁ l₂ : List α} (hp : l₁.Perm l₂)
    (hnd : l₁.Pairwise (fun a b => key a ≠ key b)) :
    sortByKey key kle l₁ = sortByKey key kle l₂ := by
  have hperm : (sortByKey key kle l₁).Perm (sortByKey key kle l₂) :=
    ((sortByKey_perm key kle l₁).trans hp).trans (sortByKey_perm key kle l₂).symm
  have hnd2 : l₂.Pairwise (fun a b => key a ≠ key b) :=
    ((hp.pairwise_iff (fun hne hq => hne hq.symm)).mp hnd)
  have hnds1 : (sortByKey key kle l₁).Pairwise (fun a b => key a ≠ key b) :=
    ((sortByKey_perm key kle l₁).pairwise_iff (fun hne hq => hne hq.symm)).mpr hnd
  have hnds2 : (sortByKey key kle l₂).Pairwise (fun a b => key a ≠ key b) :=
    ((sortByKey_perm key kle l₂).pairwise_iff (fun hne hq => hne hq.symm)).mpr hnd2
  have hs1 := sortByKey_sorted key kle total trans l₁
  have hs2 := sortByKey_sorted key kle total trans l₂
  haveI : IsAntisymm α (fun a b => kle (key a) (key b) = true ∧ key a ≠ key b) :=
    ⟨fun a b h1 h2 => absurd (anti _ _ h1.1 h2.1) h1.2⟩
  exact @List.eq_of_perm_of_sorted _
    (fun a b => kle (key a) (key b) = true ∧ key a ≠ key b) _ _ _ hperm
    (List.Pairwise.and hs1 hnds1) (List.Pairwise.and hs2 hnds2)

end KeySort

/-! ### Python tuple comparison on pairs and triples of strings -/

/-- Python `≤` on a pair of strings (tuple comparison). -/
def pairLe (p q : String × String) : Bool :=
  if p.1 = q.1 then strLe p.2 q.2 else strLe p.1 q.1

/-- Python `≤` on a triple of strings (tuple comparison). -/
def tripleLe (p q : String × String × String) : Bool :=
  if p.1 = q.1 then pairLe p.2 q.2 else strLe p.1 q.1

theorem pairLe_total (p q : String × String) : pairLe p q = true ∨ pairLe q p = true := by
  unfold pairLe
  by_cases h : p.1 = q.1
  · rw [if_pos h, if_pos h.symm]
    exact strLe_total p.2 q.2
  · rw [if_neg h, if_neg (Ne.symm h)]
    exact strLe_total p.1 q.1

theorem pairLe_trans (p q r : String × String)
    (h1 : pairLe p q = true) (h2 : pairLe q r = true) : pairLe p r = true := by
  unfold pairLe at h1 h2 ⊢
  by_cases hpq : p.1 = q.1
  · rw [if_pos hpq] at h1
    by_cases hqr : q.1 = r.1
    · rw [if_pos hqr] at h2
      rw [if_pos (hpq.trans hqr)]
      exact strLe_trans h1 h2
    · rw [if_neg hqr] at h2
      rw [if_neg (fun hpr => hqr (hpq.symm.trans hpr)), hpq]
      exact h2
  · rw [if_neg hpq] at h1
    by_cases hqr : q.1 = r.1
    · rw [if_neg (fun hpr => hpq (hpr.trans hqr.symm)), ← hqr]
      exact h1
    · rw [if_neg hqr] at h2
      by_cases hpr : p.1 = r.1
      · exfalso
        rw [hpr] at h1
        exact hqr (strLe_antisymm h2 h1)
      · rw [if_neg hpr]
        exact strLe_trans h1 h2

theorem pairLe_antisymm (p q : String × String)
    (h1 : pairLe p q = true) (h2 : pairLe q p = true) : p = q := by
  unfold pairLe at h1 h2
  by_cases h : p.1 = q.1
  · rw [if_pos h] at h1
    rw [if_pos h.symm] at h2
    exact Prod.ext h (strLe_antisymm h1 h2)
  · rw [if_neg h] at h1
    rw [if_neg (Ne.symm h)] at h2
    exact absurd (strLe_antisymm h1 h2) h

theorem tripleLe_total (p q : String × String × String) :
    tripleLe p q = true ∨ tripleLe q p = true := by
  unfold tripleLe
  by_cases h : p.1 = q.1
  · rw [if_pos h, if_pos h.symm]
    exact pairLe_total p.2 q.2
  · rw [if_neg h, if_neg (Ne.symm h)]
    exact strLe_total p.1 q.1

theorem tripleLe_trans (p q r : String × String × String)
    (h1 : tripleLe p q = true) (h2 : tripleLe q r = true) : tripleLe p r = true := by
  unfold tripleLe at h1 h2 ⊢
  by_cases hpq : p.1 = q.1
  · rw [if_pos hpq] at h1
    by_cases hqr : q.1 = r.1
    · rw [if_pos hqr] at h2
      rw [if_pos (hpq.trans hqr)]
      exact pairLe_trans _ _ _ h1 h2
    · rw [if_neg hqr] at h2
      rw [if_neg (fun hpr => hqr (hpq.symm.trans hpr)), hpq]
      exact h2
  · rw [if_neg hpq] at h1
    by_cases hqr : q.1 = r.1
    · rw [if_neg (fun hpr => hpq (hpr.trans hqr.symm)), ← hqr]
      exact h1
    · rw [if_neg hqr] at h2
      by_cases hpr : p.1 = r.1
      · exfalso
        rw [hpr] at h1
        exact hqr (strLe_antisymm h2 h1)
      · rw [if_neg hpr]
        exact strLe_trans h1 h2

theorem tripleLe_antisymm (p q : String × String × String)
    (h1 : tripleLe p q = true) (h2 : tripleLe q p = true) : p = q := by
  unfold tripleLe at h1 h2
  by_cases h : p.1 = q.1
  · rw [if_pos h] at h1
    rw [if_pos h.symm] at h2
    exact Prod.ext h (pairLe_antisymm _ _ h1 h2)
  · rw [if_neg h] at h1
    rw [if_neg (Ne.symm h)] at h2
    exact absurd (strLe_antisymm h1 h2) h

/-! ### normalizers.py: data model

`FeedItem` is the intermediate record built per `<item>`/`<entry>`
(the Python dict with keys title/link/id/date/body). -/

structure FeedItem where
  title : String
  link : String
  id : String
  date : String
  body : String
deriving DecidableEq, Repr

/-- The sort key of `items.sort(key=lambda x: (x["link"], x["id"], x["title"]))`. -/
def itemKey (it : FeedItem) : String × String × String := (it.link, it.id, it.title)

/-- `items.sort(key=...)` from normalizers.py lines 99 and 187 (stable sort by key). -/
def sortItems (l : List FeedItem) : List FeedItem := sortByKey itemKey tripleLe l

/-! ### normalizers.py: small helpers -/

/-- `_norm_ws` (normalizers.py lines 7-11): drop zero-width spaces, collapse
whitespace runs to a single space, strip both ends. -/
def _norm_ws (s : String) : String :=
  ⟨pyStripL (collapseWs (s.data.filter (fun c => !(c = '\u200b'))))⟩

/-- Character class `[\x00-\x08\x0B\x0C\x0E-\x1F]`: control characters
forbidden in XML 1.0 (TAB/LF/CR excluded). -/
def ctrlForbidden (c : Char) : Bool :=
  (c.toNat ≤ 0x08) || c.toNat = 0x0b || c.toNat = 0x0c ||
  (0x0e ≤ c.toNat && c.toNat ≤ 0x1f)

/-- Does `rest` begin with a recognized entity body (`#\d+;`, `#x[0-9A-Fa-f]+;`
or `[A-Za-z][A-Za-z0-9]+;`)?  This is the lookahead of the bare-`&` regex in
`_clean_xml_for_et` (normalizers.py line 22). -/
def isEntityRef (rest : List Char) : Bool :=
  match rest with
  | '#' :: 'x' :: t =>
    let ds := t.takeWhile (fun c => c.isDigit || ('a' ≤ c && c ≤ 'f') || ('A' ≤ c && c ≤ 'F'))
    !ds.isEmpty && ((t.drop ds.length).head? == some ';')
  | '#' :: t =>
    let ds := t.takeWhile (fun c => c.isDigit)
    !ds.isEmpty && ((t.drop ds.length).head? == some ';')
  | c :: t =>
    if c.isAlpha then
      let ds := t.takeWhile (fun d => d.isAlphanum)
      !ds.isEmpty && ((t.drop ds.length).head? == some ';')
    else false
  | [] => false

/-- The `re.sub` escaping bare ampersands in `_clean_xml_for_et`. -/
def ampEscape : List Char → List Char
  | [] => []
  | '&' :: rest =>
    if isEntityRef rest then '&' :: ampEscape rest
    else '&' :: 'a' :: 'm' :: 'p' :: ';' :: ampEscape rest
  | c :: rest => c :: ampEscape rest

/-- `_clean_xml_for_et` (normalizers.py lines 16-23): drop characters in
`[\x00-\x08\x0B\x0C\x0E-\x1F\x7F]`, then escape bare ampersands. -/
def _clean_xml_for_et (s : String) : String :=
  ⟨ampEscape (s.data.filter (fun c => !(ctrlForbidden c || c.toNat = 0x7f)))⟩

/-! ### normalizers.py: ElementTree model (well-formed path)

An `ElementTree` element: tag (namespace-expanded, Clark notation), attributes,
text content (the parser's `None` text is modelled as `""`, which is also what
`findtext` returns for it), and child elements in document order. -/

inductive XmlElem where
  | mk (tag : String) (attrs : List (String × String)) (text : String)
      (children : List XmlElem)

def XmlElem.tag : XmlElem → String
  | .mk t _ _ _ => t

def XmlElem.attrs : XmlElem → List (String × String)
  | .mk _ a _ _ => a

def XmlElem.text : XmlElem → String
  | .mk _ _ x _ => x

def XmlElem.children : XmlElem → List XmlElem
  | .mk _ _ _ cs => cs

mutual
/-- All proper subelements of an element in document (pre)order; this is the
element set traversed by an ElementTree `.//` path step. -/
def subelems : XmlElem → List XmlElem
  | .mk _ _ _ cs => subelemsList cs
def subelemsList : List XmlElem → List XmlElem
  | [] => []
  | c :: rest => c :: (subelems c ++ subelemsList rest)
end

/-- `elem.attrib.get(k)`. -/
def attrGet (e : XmlElem) (k : String) : Option String :=
  (e.attrs.find? (fun p => p.1 == k)).map (fun p => p.2)

/-- `elem.findtext(tag, default=d)` for a single-step path: text of the first
child with the given tag, else the default. -/
def findtextD (e : XmlElem) (t d : String) : String :=
  match e.children.find? (fun c => c.tag == t) with
  | some c => c.text
  | none => d

/-- Clark-notation tag of an Atom-namespaced name, as resolved by ElementTree
from the prefix map `{"atom": "http://www.w3.org/2005/Atom"}`. -/
def atomTag (s : String) : String := "\x7bhttp://www.w3.org/2005/Atom\x7d" ++ s

/-- The FeedItem built for one RSS `channel/item` element
(normalizers.py lines 148-160). -/
def rssItemOf (item : XmlElem) : FeedItem :=
  { title := _norm_ws (findtextD item ("title") (""))
    link := _norm_ws (findtextD item ("link") (""))
    id := _norm_ws (findtextD item ("guid") (""))
    date := _norm_ws (findtextD item ("pubDate") (""))
    body := _norm_ws (findtextD item ("description") ("")) }

/-- The link selection loop for an Atom entry (normalizers.py lines 166-170):
first `atom:link` child whose `rel` attribute (default `"alternate"`) is
`"alternate"`; its `href` attribute (default `""`); else `""`. -/
def atomLinkOf (entry : XmlElem) : String :=
  match (entry.children.filter (fun c => c.tag == atomTag ("link"))).find?
      (fun lk => (attrGet lk ("rel")).getD ("alternate") == "alternate") with
  | some lk => (attrGet lk ("href")).getD ("")
  | none => ""

/-- The FeedItem built for one Atom `entry` element
(normalizers.py lines 163-184).  Note that `date` comes from `atom:updated`
only: the well-formed path never consults `atom:published`. -/
def atomEntryOf (entry : XmlElem) : FeedItem :=
  { title := _norm_ws (findtextD entry (atomTag ("title")) (""))
    link := _norm_ws (atomLinkOf entry)
    id := _norm_ws (findtextD entry (atomTag ("id")) (""))
    date := _norm_ws (findtextD entry (atomTag ("updated")) (""))
    body := _norm_ws (pyOr (findtextD entry (atomTag ("summary")) (""))
      (pyOr (findtextD entry (atomTag ("content")) (""))
        (""))) }

/-- Items extracted by the well-formed path (normalizers.py lines 144-184):
`root.findall(".//channel/item")` mapped through the RSS extractor, then
`root.findall(".//atom:entry")` mapped through the Atom extractor. -/
def strictItems (root : XmlElem) : List FeedItem :=
  (((subelems root).filter (fun e => e.tag == "channel")).flatMap
      (fun ch => (ch.children.filter (fun c => c.tag == "item")).map rssItemOf))
  ++ (((subelems root).filter (fun e => e.tag == atomTag ("entry"))).map atomEntryOf)

/-! ### normalizers.py: canonical serialization (shared verbatim by
lines 101-112 of the fallback and lines 189-199 of the well-formed path) -/

/-- `body[:body_limit] if body_limit and body else ""`
(normalizers.py lines 109 and 196). -/
def truncBody (body_limit : Nat) (b : String) : String :=
  if body_limit ≠ 0 ∧ b ≠ "" then ⟨b.data.take body_limit⟩ else ""

/-- The six output lines appended per item. -/
def itemLines (body_limit : Nat) (it : FeedItem) : List String :=
  ["#ITEM",
   "title: " ++ it.title,
   "link: " ++ it.link,
   "id: " ++ it.id,
   "date: " ++ it.date,
   "body: " ++ truncBody body_limit it.body]

/-- `"\n".join(out).strip() + "\n"` over the per-item lines. -/
def renderItems (items : List FeedItem) (body_limit : Nat) : String :=
  pyStrip (joinSepS ("\n") (items.flatMap (itemLines body_limit))) ++ "\n"

/-! ### normalizers.py: regex fallback extractor (lines 62-112)

The `re` module is external; the regex searches (`re.findall` for the
item/entry blocks, `_extract_tag_text` and `_extract_atom_link_href` for the
per-block fields) are modelled as oracle functions.  Everything the repository
does with their results — the bounded take, the field wiring with its `or`
fallbacks, the sort and the serialization — is translated from the source. -/

structure RegexOracles where
  /-- `re.findall(r"<item\b.*?>.*?</item>", text, re.I | re.S)`. -/
  findall_item : String → List String
  /-- `re.findall(r"<entry\b.*?>.*?</entry>", text, re.I | re.S)`. -/
  findall_entry : String → List String
  /-- `_extract_tag_text(block, tag)` (lines 32-44). -/
  tagtext : String → String → String
  /-- `_extract_atom_link_href(block)` (lines 47-59). -/
  atom_href : String → String

/-- The record built per regex-matched `<item>` block (lines 68-80). -/
def fallbackItemOf (ro : RegexOracles) (block : String) : FeedItem :=
  { title := ro.tagtext block ("title")
    link := ro.tagtext block ("link")
    id := ro.tagtext block ("guid")
    date := ro.tagtext block ("pubDate")
    body := ro.tagtext block ("description") }

/-- The record built per regex-matched `<entry>` block (lines 83-97),
with the Python `or` fallbacks on link, date and body. -/
def fallbackEntryOf (ro : RegexOracles) (block : String) : FeedItem :=
  { title := ro.tagtext block ("title")
    link := pyOr (ro.atom_href block) (ro.tagtext block ("link"))
    id := ro.tagtext block ("id")
    date := pyOr (ro.tagtext block ("updated")) (ro.tagtext block ("published"))
    body := pyOr (ro.tagtext block ("summary")) (ro.tagtext block ("content")) }

/-- The item list assembled by the fallback: at most `max_items` item blocks,
then at most `max_items` entry blocks. -/
def fallbackItems (ro : RegexOracles) (text : String) (max_items : Nat) : List FeedItem :=
  ((ro.findall_item text).take max_items).map (fallbackItemOf ro)
  ++ ((ro.findall_entry text).take max_items).map (fallbackEntryOf ro)

/-- `_normalize_rss_min_fallback` (lines 62-112); its serialization code is
line-for-line the one of the well-formed path, hence shares `renderItems`. -/
def _normalize_rss_min_fallback (ro : RegexOracles) (text : String)
    (body_limit max_items : Nat) : String :=
  renderItems (sortItems (fallbackItems ro text max_items)) body_limit

/-- `normalize_rss_min` (lines 115-199).  `parse` models `ET.fromstring`
(`none` = any exception); the and-then-clean retry and the fallback cascade
are translated from the source.  Defaults in the source: `body_limit=5000`,
fallback `max_items=200`. -/
def normalize_rss_min (parse : String → Option XmlElem) (ro : RegexOracles)
    (xml_text : String) (body_limit : Nat) : String :=
  match parse xml_text with
  | some root => renderItems (sortItems (strictItems root)) body_limit
  | none =>
    match parse (_clean_xml_for_et xml_text) with
    | some root => renderItems (sortItems (strictItems root)) body_limit
    | none => _normalize_rss_min_fallback ro xml_text body_limit 200

/-- The serialization applied once a parse succeeded; named for reuse in
statements about the well-formed path. -/
def normalizeParsed (root : XmlElem) (body_limit : Nat) : String :=
  renderItems (sortItems (strictItems root)) body_limit

/-! ### normalizers.py: OpenAPI canonicalizer (lines 202-227)

`yaml.safe_load` builds a tree of `None`/`bool`/`int`/`float`-free scalars,
strings, dates (YAML timestamp scalars become `datetime.date` objects, which
`json.dumps` rejects), sequences and mappings.  The parser itself is external
and passed as an oracle; the tree type and everything the function does with
the tree are modelled here. -/

inductive Yaml where
  | null
  | bool (b : Bool)
  | int (n : Int)
  | str (s : String)
  /-- A YAML timestamp scalar: `safe_load` returns a `datetime.date`, carried
  here as its ISO string.  `json.dumps` raises `TypeError` on it. -/
  | date (iso : String)
  | arr (xs : List Yaml)
  | obj (kvs : List (String × Yaml))

/-- First value stored under a key (`d.get(k)`). -/
def lookupKey (kvs : List (String × Yaml)) (k : String) : Option Yaml :=
  (kvs.find? (fun p => p.1 == k)).map (fun p => p.2)

/-- Python truthiness of a parsed YAML value. -/
def yamlFalsy : Yaml → Bool
  | .null => true
  | .bool b => !b
  | .int n => n == 0
  | .str s => s == ""
  | .date _ => false
  | .arr xs => xs.isEmpty
  | .obj kvs => kvs.isEmpty

/-! Python `str()` / `repr()` of a parsed YAML value, as used by the sort key
`str(s)`.  Container entries render with `repr`; `repr` of a string is
modelled as the always-single-quoted form (Python varies the quote character
when the text itself holds quotes; no claim depends on that corner). -/

/-- repr-escaping for characters inside a single-quoted Python string. -/
def pyReprEsc (c : Char) : List Char :=
  if c = '\\' then ['\\', '\\']
  else if c = '\'' then ['\\', '\'']
  else [c]

mutual
/-- Python `str(v)`. -/
def pyStr : Yaml → String
  | .str s => s
  | v => pyRepr v
/-- Python `repr(v)`. -/
def pyRepr : Yaml → String
  | .null => "None"
  | .bool b => if b then "True" else "False"
  | .int n => toString n
  | .str s => ⟨'\'' :: (s.data.flatMap pyReprEsc ++ ['\''])⟩
  | .date iso => "datetime.date(" ++ iso ++ ")"
  | .arr xs => "[" ++ joinSepS (", ") (pyReprList xs) ++ "]"
  | .obj kvs => "\x7b" ++ joinSepS (", ") (pyReprKvs kvs) ++ "\x7d"
def pyReprList : List Yaml → List String
  | [] => []
  | x :: xs => pyRepr x :: pyReprList xs
def pyReprKvs : List (String × Yaml) → List String
  | [] => []
  | (k, v) :: kvs => (pyRepr (.str k) ++ ": " ++ pyRepr v) :: pyReprKvs kvs
end

/-- `(s or {}).get("url", "")` restricted to the string-valued case the sort
key comparison accepts (a non-string url value makes the Python tuple
comparison raise, which `serverKeyable` rules out). -/
def urlOf (s : Yaml) : String :=
  if yamlFalsy s then ""
  else match s with
    | .obj kvs =>
      match lookupKey kvs ("url") with
      | some (.str u) => u
      | _ => ""
    | _ => ""

/-- Whether the Python sort key `lambda s: ((s or {}).get("url", ""), str(s))`
can be computed and compared for this entry: falsy entries give `""`; dict
entries need a string (or absent) `url`; anything else raises
(`AttributeError` on `.get`, or `TypeError` comparing mixed tuple parts). -/
def serverKeyable (s : Yaml) : Bool :=
  if yamlFalsy s then true
  else match s with
    | .obj kvs =>
      match lookupKey kvs ("url") with
      | some (.str _) => true
      | none => true
      | some _ => false
    | _ => false

/-- The sort key `((s or {}).get("url", ""), str(s))`. -/
def serverKey (s : Yaml) : String × String := (urlOf s, pyStr s)

/-- `sorted(obj["servers"], key=...)` wrapped in the `try`: `.ok` with the
sorted list when every key computes, `.error` when the comparison raises
(the `except` then leaves `servers` untouched). -/
def trySortServers (xs : List Yaml) : Except Unit (List Yaml) :=
  if xs.all serverKeyable then .ok (sortByKey serverKey pairLe xs) else .error ()

/-- The dict assignment `obj["servers"] = ...`: replace the value stored
under `"servers"` (identity on a mapping without that key). -/
def setServers (kvs : List (String × Yaml)) (xs : List Yaml) : List (String × Yaml) :=
  kvs.map (fun p => if p.1 = "servers" then (p.1, Yaml.arr xs) else p)

/-- The servers-stabilization step (normalizers.py lines 216-224). -/
def sortServersStep (obj : Yaml) : Yaml :=
  match obj with
  | .obj kvs =>
    match lookupKey kvs ("servers") with
    | some (.arr xs) =>
      match trySortServers xs with
      | .ok xs2 => .obj (setServers kvs xs2)
      | .error _ => .obj kvs
    | _ => .obj kvs
  | v => v

/-! `json.dumps(obj, ensure_ascii=False, sort_keys=True, indent=2)`.
The serializer raises `TypeError` on a `datetime.date` value; every other
constructor renders.  `sort_keys` sorts each mapping's keys; with `indent=2`
containers spread over lines with 2-space-per-level indentation. -/

/-- One hex digit. -/
def hexDigit (n : Nat) : Char :=
  if n < 10 then Char.ofNat ('0'.toNat + n) else Char.ofNat ('a'.toNat + n - 10)

/-- JSON string quoting (ensure_ascii=False: non-ASCII kept literal). -/
def jsonQuote (s : String) : String :=
  "\"" ++ ⟨s.data.flatMap (fun c =>
    if c = '\\' then ['\\', '\\']
    else if c = '"' then ['\\', '"']
    else if c = '\n' then ['\\', 'n']
    else if c = '\t' then ['\\', 't']
    else if c = '\r' then ['\\', 'r']
    else if c = '\x08' then ['\\', 'b']
    else if c = '\x0c' then ['\\', 'f']
    else if c.toNat < 0x20 then
      ['\\', 'u', '0', '0', hexDigit (c.toNat / 16), hexDigit (c.toNat % 16)]
    else [c])⟩ ++ "\""

/-- `"  " * n`. -/
def indentStr (n : Nat) : String := ⟨List.replicate (2 * n) ' '⟩

mutual
/-- `json.dumps` body at nesting level `ind`. -/
def dumpVal (ind : Nat) : Yaml → Except Unit String
  | .null => .ok ("null")
  | .bool b => .ok (if b then "true" else "false")
  | .int n => .ok (toString n)
  | .str s => .ok (jsonQuote s)
  | .date _ => .error ()
  | .arr xs =>
    match dumpList (ind + 1) xs with
    | .error e => .error e
    | .ok [] => .ok ("[]")
    | .ok parts =>
      .ok ("[\n" ++ joinSepS (",\n") (parts.map (fun p => indentStr (ind + 1) ++ p))
        ++ "\n" ++ indentStr ind ++ "]")
  | .obj kvs =>
    match dumpKvs (ind + 1) kvs with
    | .error e => .error e
    | .ok [] => .ok ("\x7b\x7d")
    | .ok prs =>
      .ok ("\x7b\n" ++ joinSepS (",\n")
          ((sortByKey Prod.fst strLe prs).map
            (fun pr => indentStr (ind + 1) ++ jsonQuote pr.1 ++ ": " ++ pr.2))
        ++ "\n" ++ indentStr ind ++ "\x7d")
def dumpList (ind : Nat) : List Yaml → Except Unit (List String)
  | [] => .ok []
  | x :: xs =>
    match dumpVal ind x, dumpList ind xs with
    | .ok s, .ok ss => .ok (s :: ss)
    | .error e, _ => .error e
    | _, .error e => .error e
def dumpKvs (ind : Nat) : List (String × Yaml) → Except Unit (List (String × String))
  | [] => .ok []
  | (k, v) :: kvs =>
    match dumpVal ind v, dumpKvs ind kvs with
    | .ok s, .ok ss => .ok ((k, s) :: ss)
    | .error e, _ => .error e
    | _, .error e => .error e
end

/-- `json.dumps(v, ensure_ascii=False, sort_keys=True, indent=2)`. -/
def json_dumps (v : Yaml) : Except Unit String := dumpVal 0 v

/-- The transformation applied to a successfully parsed document: stabilize
`servers`, then serialize and append the trailing newline (lines 216-227).
The `json.dumps` call sits outside any `try`, so its failure propagates. -/
def canonicalizeYaml (obj : Yaml) : Except Unit String :=
  (json_dumps (sortServersStep obj)).map (fun s => s ++ "\n")

/-- `normalize_openapi_c14n_v1` (normalizers.py lines 202-227).
`yaml_importable` models the guarded `import yaml`; `safe_load` models
`yaml.safe_load` (`.error` = any exception).  A `.error` result of the whole
function models an uncaught exception escaping the function. -/
def normalize_openapi_c14n_v1 (yaml_importable : Bool)
    (safe_load : String → Except Unit Yaml) (yaml_text : String) :
    Except Unit String :=
  if !yaml_importable then .ok yaml_text
  else
    match safe_load yaml_text with
    | .error _ => .ok yaml_text
    | .ok obj => canonicalizeYaml obj

/-! ### generate_rss.py: base URL resolution (lines 14-20)

The process environment is modelled as a partial map from variable names to
values; `os.environ.get(name, "")` is `(env name).getD ""`. -/

/-- `repo.split("/", 1)`: the part before the first `/` and the rest. -/
def splitFirstSlash (s : String) : String × String :=
  (⟨s.data.takeWhile (fun c => c ≠ '/')⟩, ⟨(s.data.dropWhile (fun c => c ≠ '/')).drop 1⟩)

/-- `guess_base_url` (generate_rss.py lines 14-20): derived from
`GITHUB_REPOSITORY` when it is non-empty and contains a slash, otherwise the
localhost default.  No other environment variable is consulted. -/
def guess_base_url (env : String → Option String) : String :=
  let repo := (env ("GITHUB_REPOSITORY")).getD ""
  if repo ≠ "" ∧ repo.data.contains '/' then
    let ons := splitFirstSlash repo
    "https://" ++ ons.1 ++ ".github.io/" ++ ons.2 ++ "/"
  else "http://localhost/"

/-! ### generate_rss.py: XML 1.0 sanitizing and CDATA wrapping (lines 37-48) -/

/-- `sanitize_xml_10` (lines 37-42): strip `[\x00-\x08\x0B\x0C\x0E-\x1F]`
(TAB/LF/CR survive; unlike `_clean_xml_for_et`, `\x7F` is kept, and `\x7F`
is a legal XML 1.0 character). -/
def sanitize_xml_10 (s : String) : String :=
  if s = "" then "" else ⟨s.data.filter (fun c => !ctrlForbidden c)⟩

/-- Does the list start with the CDATA terminator `]]>`? -/
def startsTerm (l : List Char) : Bool :=
  match l with
  | a :: b :: c :: _ => a = ']' && b = ']' && c = '>'
  | _ => false

/-- `s.replace("]]>", "]]]]><![CDATA[>")`: leftmost, non-overlapping. -/
def replTerm (l : List Char) : List Char
 :=
  match l with
  | [] => []
  | c :: rest =>
    if startsTerm (c :: rest) then
      (']' :: ']' :: ']' :: ']' :: '>' :: '<' :: '!' :: '[' :: 'C' :: 'D' :: 'A' :: 'T' :: 'A' :: '[' :: '>' :: [])
        ++ replTerm (rest.drop 2)
    else c :: replTerm rest
termination_by l.length
decreasing_by
  · simp only [List.length_cons, List.length_drop]
    omega
  · simp only [List.length_cons]
    omega

/-- `cdata_wrap` (lines 45-48): sanitize, split interior terminators, wrap. -/
def cdata_wrap (s : String) : String :=
  "<![CDATA[" ++ ⟨replTerm (sanitize_xml_10 s).data⟩ ++ "]]>"

/-! A CDATA-section reader, used to state that `cdata_wrap` is lossless: it
models how an XML parser consumes `<![CDATA[` sections, each one ending at
the FIRST following `]]>`, and concatenates their character content. -/

/-- Scan to the first `]]>`: the content before it and the remainder after it. -/
def scanToTerm : List Char → Option (List Char × List Char)
  | [] => none
  | c :: rest =>
    if startsTerm (c :: rest) then some ([], rest.drop 2)
    else (scanToTerm rest).map (fun pr => (c :: pr.1, pr.2))

/-- The `<![CDATA[` opener. -/
def cdataOpen : List Char := ['<', '!', '[', 'C', 'D', 'A', 'T', 'A', '[']

theorem scanToTerm_decomp : ∀ l pr, scanToTerm l = some pr →
    l = pr.1 ++ ']' :: ']' :: '>' :: pr.2
  | [], pr => by simp [scanToTerm]
  | c :: rest, pr => by
    simp only [scanToTerm]
    by_cases h : startsTerm (c :: rest) = true
    · rw [if_pos h]
      intro he
      cases he
      match c, rest, h with
      | a, b :: d :: t, h =>
        simp only [startsTerm, Bool.and_eq_true, decide_eq_true_eq] at h
        obtain ⟨⟨rfl, rfl⟩, rfl⟩ := h
        rfl
    · rw [if_neg h]
      intro he
      match hs : scanToTerm rest with
      | none => rw [hs] at he; cases he
      | some pr2 =>
        rw [hs] at he
        cases he
        have := scanToTerm_decomp rest pr2 hs
        simp only [List.cons_append]
        rw [← this]

/-- Consume a sequence of CDATA sections covering the whole input and return
the concatenated contents. -/
def parseCData (l : List Char) : Option (List Char) :=
  match l with
  | [] => some []
  | c0 :: rest =>
    if cdataOpen.isPrefixOf (c0 :: rest) then
      match hs : scanToTerm ((c0 :: rest).drop 9) with
      | none => none
      | some pr =>
        match parseCData pr.2 with
        | none => none
        | some more => some (pr.1 ++ more)
    else none
termination_by l.length
decreasing_by
  have hd := scanToTerm_decomp _ _ hs
  have hlen := congrArg List.length hd
  simp only [List.length_drop, List.length_cons, List.length_append] at hlen ⊢
  omega

/-! ### CDATA round-trip infrastructure -/

/-- The CDATA terminator `]]>`. -/
def termChars : List Char := [']', ']', '>']

/-- The replacement text `]]]]><![CDATA[>` of `cdata_wrap`. -/
def replChars : List Char :=
  [']', ']', ']', ']', '>', '<', '!', '[', 'C', 'D', 'A', 'T', 'A', '[', '>']

theorem startsTerm_head {a : Char} {t : List Char} (h : startsTerm (a :: t) = true) :
    a = ']' := by
  match t with
  | [] => simp [startsTerm] at h
  | [x] => simp [startsTerm] at h
  | x :: y :: t2 =>
    simp only [startsTerm, Bool.and_eq_true, decide_eq_true_eq] at h
    exact h.1.1

theorem startsTerm_elim {l : List Char} (h : startsTerm l = true) :
    ∃ t, l = ']' :: ']' :: '>' :: t := by
  match l with
  | [] => simp [startsTerm] at h
  | [x] => simp [startsTerm] at h
  | [x, y] => simp [startsTerm] at h
  | x :: y :: z :: t =>
    simp only [startsTerm, Bool.and_eq_true, decide_eq_true_eq] at h
    obtain ⟨⟨rfl, rfl⟩, rfl⟩ := h
    exact ⟨t, rfl⟩

theorem startsTerm_term (t : List Char) : startsTerm (']' :: ']' :: '>' :: t) = true := by
  simp [startsTerm]

theorem startsTerm_three (a b c : Char) (t t2 : List Char) :
    startsTerm (a :: b :: c :: t) = startsTerm (a :: b :: c :: t2) := by
  simp [startsTerm]

theorem scanToTerm_nil : scanToTerm [] = none := rfl

theorem scanToTerm_cons (c : Char) (rest : List Char) :
    scanToTerm (c :: rest) =
      if startsTerm (c :: rest) then some ([], rest.drop 2)
      else (scanToTerm rest).map (fun pr => (c :: pr.1, pr.2)) := rfl

theorem scan_none_parts {c : Char} {p : List Char} (h : scanToTerm (c :: p) = none) :
    startsTerm (c :: p) = false ∧ scanToTerm p = none := by
  rw [scanToTerm_cons] at h
  by_cases hs : startsTerm (c :: p) = true
  · rw [if_pos hs] at h
    cases h
  · rw [if_neg hs] at h
    refine ⟨Bool.eq_false_iff.mpr hs, ?_⟩
    match hp : scanToTerm p with
    | none => rfl
    | some pr => rw [hp] at h; cases h

theorem scan_none_append_term : ∀ p r : List Char, scanToTerm p = none →
    scanToTerm (p ++ ']' :: ']' :: '>' :: r) = some (p, r)
  | [], r, _ => by
    rw [List.nil_append, scanToTerm_cons, if_pos (startsTerm_term r)]
    rfl
  | c :: p', r, h => by
    obtain ⟨hf, hp'⟩ := scan_none_parts h
    rw [List.cons_append, scanToTerm_cons]
    have hf2 : startsTerm (c :: (p' ++ ']' :: ']' :: '>' :: r)) = false := by
      match p' with
      | [] =>
        simp only [List.nil_append]
        by_cases hx : startsTerm (c :: ']' :: ']' :: '>' :: r) = true
        · obtain ⟨t, ht⟩ := startsTerm_elim hx
          simp at ht
        · exact Bool.eq_false_iff.mpr hx
      | [x] =>
        simp only [List.cons_append, List.nil_append]
        by_cases hx : startsTerm (c :: x :: ']' :: ']' :: '>' :: r) = true
        · obtain ⟨t, ht⟩ := startsTerm_elim hx
          simp at ht
        · exact Bool.eq_false_iff.mpr hx
      | x :: y :: p'' =>
        simp only [List.cons_append]
        rw [startsTerm_three c x y (p'' ++ ']' :: ']' :: '>' :: r) p'']
        exact hf
    rw [if_neg (Bool.eq_false_iff.mp hf2 ∘ Eq.symm ∘ Eq.symm)]
    rw [scan_none_append_term p' r hp']
    rfl

theorem scan_none_append_rb : ∀ p : List Char, scanToTerm p = none →
    scanToTerm (p ++ [']']) = none
  | [], _ => rfl
  | c :: p', h => by
    obtain ⟨hf, hp'⟩ := scan_none_parts h
    rw [List.cons_append, scanToTerm_cons]
    have hf2 : startsTerm (c :: (p' ++ [']'])) = false := by
      match p' with
      | [] => rfl
      | [x] =>
        by_cases hx : startsTerm (c :: x :: [']']) = true
        · obtain ⟨t, ht⟩ := startsTerm_elim hx
          simp at ht
        · exact Bool.eq_false_iff.mpr hx
      | x :: y :: p'' =>
        simp only [List.cons_append]
        rw [startsTerm_three c x y (p'' ++ [']']) p'']
        exact hf
    rw [if_neg (by rw [hf2]; intro hc; cases hc)]
    rw [scan_none_append_rb p' hp']
    rfl

theorem scan_none_gt_cons (p : List Char) (h : scanToTerm p = none) :
    scanToTerm ('>' :: p) = none := by
  rw [scanToTerm_cons]
  have hf : startsTerm ('>' :: p) = false := by
    by_cases hx : startsTerm ('>' :: p) = true
    · have := startsTerm_head hx
      cases this
    · exact Bool.eq_false_iff.mpr hx
  rw [if_neg (by rw [hf]; intro hc; cases hc)]
  rw [h]
  rfl

/-- Split a character list at each (leftmost, non-overlapping) occurrence of
`]]>`; `replTerm` is rejoining the parts with `replChars`. -/
def splitTerm (l : List Char) : List (List Char) :=
  match l with
  | [] => [[]]
  | c :: rest =>
    if startsTerm (c :: rest) then [] :: splitTerm (rest.drop 2)
    else
      match splitTerm rest with
      | p :: ps => (c :: p) :: ps
      | [] => [[c]]
termination_by l.length
decreasing_by
  · simp only [List.length_cons, List.length_drop]
    omega
  · simp only [List.length_cons]
    omega

/-- Join parts with a separator (`sep.join(parts)` shape). -/
def joinSep (sep : List Char) : List (List Char) → List Char
  | [] => []
  | [p] => p
  | p :: ps => p ++ sep ++ joinSep sep ps

theorem joinSep_cons_cons (sep p q : List Char) (ps : List (List Char)) :
    joinSep sep (p :: q :: ps) = p ++ sep ++ joinSep sep (q :: ps) := rfl

theorem joinSep_cons_head (sep : List Char) (x : Char) (p : List Char)
    (ps : List (List Char)) :
    joinSep sep ((x :: p) :: ps) = x :: joinSep sep (p :: ps) := by
  match ps with
  | [] => rfl
  | q :: ps' => rfl

theorem splitTerm_nil : splitTerm [] = [[]] := by
  rw [splitTerm.eq_def]

theorem splitTerm_cons (c : Char) (rest : List Char) :
    splitTerm (c :: rest) =
      if startsTerm (c :: rest) then [] :: splitTerm (rest.drop 2)
      else
        match splitTerm rest with
        | p :: ps => (c :: p) :: ps
        | [] => [[c]] := by
  rw [splitTerm.eq_def]

theorem replTerm_nil : replTerm [] = [] := by
  rw [replTerm.eq_def]

theorem replTerm_cons (c : Char) (rest : List Char) :
    replTerm (c :: rest) =
      if startsTerm (c :: rest) then replChars ++ replTerm (rest.drop 2)
      else c :: replTerm rest := by
  rw [replTerm.eq_def]
  rfl

theorem splitTerm_ne_nil (l : List Char) : ∃ p ps, splitTerm l = p :: ps := by
  match l with
  | [] => exact ⟨[], [], splitTerm_nil⟩
  | c :: rest =>
    rw [splitTerm_cons]
    by_cases h : startsTerm (c :: rest) = true
    · rw [if_pos h]
      exact ⟨[], splitTerm (rest.drop 2), rfl⟩
    · rw [if_neg h]
      match splitTerm rest with
      | p :: ps => exact ⟨c :: p, ps, rfl⟩
      | [] => exact ⟨[c], [], rfl⟩

theorem joinSep_single (sep p : List Char) : joinSep sep [p] = p := rfl

theorem splitTerm_join (l : List Char) : joinSep termChars (splitTerm l) = l := by
  match l with
  | [] =>
    rw [splitTerm_nil]
    rfl
  | c :: rest =>
    rw [splitTerm_cons]
    by_cases h : startsTerm (c :: rest) = true
    · rw [if_pos h]
      obtain ⟨t, ht⟩ := startsTerm_elim h
      injection ht with h1 h2
      have hd : rest.drop 2 = t := by rw [h2]; simp
      have ihr := splitTerm_join (rest.drop 2)
      rw [hd] at ihr ⊢
      obtain ⟨p, ps, hsp⟩ := splitTerm_ne_nil t
      rw [hsp] at ihr ⊢
      rw [joinSep_cons_cons, ihr, h1, h2]
      rfl
    · rw [if_neg h]
      have ihr := splitTerm_join rest
      obtain ⟨q, qs, hsp⟩ := splitTerm_ne_nil rest
      rw [hsp] at ihr ⊢
      rw [joinSep_cons_head, ihr]
termination_by l.length
decreasing_by
  · simp only [List.length_cons, List.length_drop]
    omega
  · simp only [List.length_cons]
    omega

theorem splitTerm_repl (l : List Char) : joinSep replChars (splitTerm l) = replTerm l := by
  match l with
  | [] =>
    rw [splitTerm_nil, replTerm_nil]
    rfl
  | c :: rest =>
    rw [splitTerm_cons, replTerm_cons]
    by_cases h : startsTerm (c :: rest) = true
    · rw [if_pos h, if_pos h]
      obtain ⟨t, ht⟩ := startsTerm_elim h
      injection ht with h1 h2
      have hd : rest.drop 2 = t := by rw [h2]; simp
      have ihr := splitTerm_repl (rest.drop 2)
      rw [hd] at ihr ⊢
      obtain ⟨p, ps, hsp⟩ := splitTerm_ne_nil t
      rw [hsp] at ihr ⊢
      rw [joinSep_cons_cons, ihr]
      simp
    · rw [if_neg h, if_neg h]
      have ihr := splitTerm_repl rest
      obtain ⟨q, qs, hsp⟩ := splitTerm_ne_nil rest
      rw [hsp] at ihr ⊢
      rw [joinSep_cons_head, ihr]
termination_by l.length
decreasing_by
  · simp only [List.length_cons, List.length_drop]
    omega
  · simp only [List.length_cons]
    omega

theorem splitTerm_clean (l : List Char) : ∀ p ∈ splitTerm l, scanToTerm p = none := by
  match l with
  | [] =>
    intro p hp
    rw [splitTerm_nil, List.mem_singleton] at hp
    subst hp
    rfl
  | c :: rest =>
    intro p hp
    rw [splitTerm_cons] at hp
    by_cases h : startsTerm (c :: rest) = true
    · rw [if_pos h] at hp
      rcases List.mem_cons.mp hp with rfl | hmem
      · rfl
      · exact splitTerm_clean (rest.drop 2) p hmem
    · rw [if_neg h] at hp
      obtain ⟨q, qs, hsp⟩ := splitTerm_ne_nil rest
      rw [hsp] at hp
      rcases List.mem_cons.mp hp with rfl | hmem
      · have hq : scanToTerm q = none :=
          splitTerm_clean rest q (by rw [hsp]; exact List.mem_cons_self _ _)
        have hf : startsTerm (c :: q) = false := by
          by_cases hx : startsTerm (c :: q) = true
          · exfalso
            obtain ⟨u, hu⟩ := startsTerm_elim hx
            injection hu with hu1 hu2
            subst hu1
            have hj := splitTerm_join rest
            rw [hsp] at hj
            apply h
            match qs, hj with
            | [], hj =>
              rw [joinSep_single, hu2] at hj
              rw [← hj]
              exact startsTerm_term u
            | q2 :: qs2, hj =>
              rw [joinSep_cons_cons, hu2] at hj
              rw [← hj]
              simp only [List.cons_append]
              exact startsTerm_term _
          · exact Bool.eq_false_iff.mpr hx
        rw [scanToTerm_cons, if_neg (by rw [hf]; intro hc; cases hc), hq]
        rfl
      · exact splitTerm_clean rest p (by rw [hsp]; exact List.mem_cons_of_mem _ hmem)
termination_by l.length
decreasing_by
  · simp only [List.length_cons, List.length_drop]
    omega
  · simp only [List.length_cons]
    omega
  · simp only [List.length_cons]
    omega

theorem parseCData_nil : parseCData [] = some [] := by
  rw [parseCData.eq_def]

theorem parseCData_open (X : List Char) :
    parseCData (cdataOpen ++ X) =
      match scanToTerm X with
      | none => none
      | some pr =>
        match parseCData pr.2 with
        | none => none
        | some more => some (pr.1 ++ more) := by
  rw [parseCData.eq_def]
  simp only [cdataOpen, List.cons_append, List.nil_append, List.isPrefixOf,
    beq_self_eq_true, Bool.and_self, if_true, List.drop_succ_cons, List.drop_zero]
  split
  case _ hnone => rw [hnone]
  case _ pr heq => rw [heq]

theorem parse_sections (parts : List (List Char)) (hne : parts ≠ [])
    (hclean : ∀ p ∈ parts, scanToTerm p = none) :
    parseCData (cdataOpen ++ (joinSep replChars parts ++ termChars)) =
      some (joinSep termChars parts) := by
  match parts with
  | [] => exact absurd rfl hne
  | [p] =>
    rw [parseCData_open, joinSep_single]
    have hp := hclean p (List.mem_singleton.mpr rfl)
    have hscan : scanToTerm (p ++ termChars) = some (p, []) :=
      scan_none_append_term p [] hp
    rw [hscan]
    simp [parseCData_nil, joinSep_single]
  | p :: q :: ps =>
    rw [parseCData_open, joinSep_cons_cons]
    have hp := hclean p (List.mem_cons_self _ _)
    have hq := hclean q (List.mem_cons_of_mem _ (List.mem_cons_self _ _))
    have hrestr : (p ++ replChars ++ joinSep replChars (q :: ps)) ++ termChars
        = (p ++ [']', ']']) ++ ']' :: ']' :: '>' ::
            (cdataOpen ++ ('>' :: joinSep replChars (q :: ps) ++ termChars)) := by
      simp only [replChars, cdataOpen, termChars, List.append_assoc, List.cons_append,
        List.nil_append]
    rw [hrestr]
    have hclean2 : scanToTerm (p ++ [']', ']']) = none := by
      have h1 := scan_none_append_rb p hp
      have h2 := scan_none_append_rb _ h1
      simpa [List.append_assoc] using h2
    have hJ2 : ('>' :: joinSep replChars (q :: ps)) ++ termChars
        = joinSep replChars (('>' :: q) :: ps) ++ termChars := by
      rw [joinSep_cons_head]
    rw [scan_none_append_term _ _ hclean2, hJ2]
    have hclean3 : ∀ r ∈ ('>' :: q) :: ps, scanToTerm r = none := by
      intro r hr
      rcases List.mem_cons.mp hr with rfl | hmem
      · exact scan_none_gt_cons q hq
      · exact hclean r (List.mem_cons_of_mem _ (List.mem_cons_of_mem _ hmem))
    have ih := parse_sections (('>' :: q) :: ps) (by intro hc; cases hc) hclean3
    simp only [joinSep_cons_head, joinSep_cons_cons, termChars, List.append_assoc,
      List.cons_append, List.nil_append] at ih
    simp [ih, joinSep_cons_head, joinSep_cons_cons, termChars, List.append_assoc]
termination_by parts.length
decreasing_by
  simp only [List.length_cons]
  omega

/-- `(s ++ t).data = s.data ++ t.data`. -/
theorem data_append (s t : String) : (s ++ t).data = s.data ++ t.data := by
  cases s
  cases t
  rfl

theorem cdata_wrap_data (s : String) :
    (cdata_wrap s).data
      = cdataOpen ++ (replTerm (sanitize_xml_10 s).data ++ termChars) := by
  unfold cdata_wrap
  rw [data_append, data_append]
  have h1 : ("<![CDATA[" : String).data = cdataOpen := by decide
  have h2 : ("]]>" : String).data = termChars := by decide
  rw [h1, h2, List.append_assoc]

/-! ### The normalization entry point keyed by declared kind -/

inductive NormKind where
  | rss_min
  | openapi_c14n_v1

/-- The external parsers a run of the normalizer depends on (all fixed,
deterministic functions of their input). -/
structure NormOracles where
  parse : String → Option XmlElem
  regex : RegexOracles
  yaml_importable : Bool
  safe_load : String → Except Unit Yaml

/-- One normalization call, dispatching on the target's declared kind.
`rss_min` never raises (always `.ok`); an `.error` from the OpenAPI side
models an uncaught exception. -/
def runNormalizer (o : NormOracles) (k : NormKind) (text : String) : Except Unit String :=
  match k with
  | .rss_min => .ok (normalize_rss_min o.parse o.regex text 5000)
  | .openapi_c14n_v1 => normalize_openapi_c14n_v1 o.yaml_importable o.safe_load text

/-! ### Trailing-newline facts for the canonical serialization -/

theorem dropWhile_head_not (p : Char → Bool) :
    ∀ m : List Char, m.dropWhile p = [] ∨
      ∃ c t, m.dropWhile p = c :: t ∧ p c = false
  | [] => Or.inl rfl
  | c :: m => by
    by_cases h : p c = true
    · rw [List.dropWhile_cons_of_pos h]
      exact dropWhile_head_not p m
    · rw [List.dropWhile_cons_of_neg h]
      exact Or.inr ⟨c, m, rfl, Bool.eq_false_iff.mpr h⟩

theorem pyStripL_getLast (l : List Char) :
    pyStripL l = [] ∨ ∃ c, (pyStripL l).getLast? = some c ∧ pyIsSpace c = false := by
  unfold pyStripL
  rcases dropWhile_head_not pyIsSpace ((l.dropWhile pyIsSpace).reverse) with h | ⟨c, t, h, hc⟩
  · rw [h]
    exact Or.inl rfl
  · rw [h]
    refine Or.inr ⟨c, ?_, hc⟩
    rw [List.getLast?_reverse]
    rfl

theorem renderItems_data (items : List FeedItem) (bl : Nat) :
    (renderItems items bl).data
      = pyStripL (joinSepS ("\n") (items.flatMap (itemLines bl))).data ++ ['\n'] := by
  unfold renderItems
  rw [data_append]
  rfl

theorem renderItems_newline (items : List FeedItem) (bl : Nat) :
    (renderItems items bl).data.getLast? = some '\n'
    ∧ (renderItems items bl).data.dropLast.getLast? ≠ some '\n' := by
  rw [renderItems_data]
  constructor
  · rw [List.getLast?_concat]
  · rw [List.dropLast_concat]
    rcases pyStripL_getLast (joinSepS ("\n") (items.flatMap (itemLines bl))).data with
      h | ⟨c, hc, hsp⟩
    · rw [h]
      intro hx
      cases hx
    · rw [hc]
      intro hx
      injection hx with hx
      subst hx
      simp [pyIsSpace] at hsp

theorem renderItems_nil (bl : Nat) : renderItems [] bl = "\n" := rfl

/-! ### Facts about `splitFirstSlash` -/

theorem takeWhile_append_all (p : Char → Bool) :
    ∀ l r : List Char, (∀ c ∈ l, p c = true) →
      (l ++ r).takeWhile p = l ++ r.takeWhile p
  | [], r, _ => rfl
  | c :: l, r, h => by
    rw [List.cons_append, List.takeWhile_cons_of_pos (h c (List.mem_cons_self _ _)),
      takeWhile_append_all p l r (fun d hd => h d (List.mem_cons_of_mem _ hd))]
    rfl

theorem dropWhile_append_all (p : Char → Bool) :
    ∀ l r : List Char, (∀ c ∈ l, p c = true) →
      (l ++ r).dropWhile p = r.dropWhile p
  | [], r, _ => rfl
  | c :: l, r, h => by
    rw [List.cons_append, List.dropWhile_cons_of_pos (h c (List.mem_cons_self _ _))]
    exact dropWhile_append_all p l r (fun d hd => h d (List.mem_cons_of_mem _ hd))

theorem splitFirstSlash_eq (owner name : String) (h : ∀ c ∈ owner.data, c ≠ '/') :
    splitFirstSlash (owner ++ "/" ++ name) = (owner, name) := by
  unfold splitFirstSlash
  have hd : (owner ++ "/" ++ name).data = owner.data ++ ('/' :: name.data) := by
    rw [data_append, data_append]
    simp
  rw [hd]
  have hall : ∀ c ∈ owner.data, (decide (c ≠ '/')) = true := by
    intro c hc
    simpa using h c hc
  rw [takeWhile_append_all _ _ _ hall, dropWhile_append_all _ _ _ hall]
  rw [List.takeWhile_cons_of_neg (by simp), List.dropWhile_cons_of_neg (by simp)]
  simp only [List.append_nil, List.drop_succ_cons, List.drop_zero]

/-! ### Facts about the servers-stabilization step -/

theorem lookupKey_cons_miss (k : String) (v : Yaml) (kvs : List (String × Yaml))
    (key : String) (h : (k == key) = false) :
    lookupKey ((k, v) :: kvs) key = lookupKey kvs key := by
  simp [lookupKey, List.find?, h]

theorem lookupKey_cons_hit (k : String) (v : Yaml) (kvs : List (String × Yaml))
    (key : String) (h : (k == key) = true) :
    lookupKey ((k, v) :: kvs) key = some v := by
  simp [lookupKey, List.find?, h]

theorem lookupKey_setServers (xs : List Yaml) :
    ∀ kvs : List (String × Yaml),
      lookupKey (setServers kvs xs) ("servers")
        = match lookupKey kvs ("servers") with
          | some _ => some (Yaml.arr xs)
          | none => none
  | [] => rfl
  | (k, v) :: kvs => by
    by_cases h : k = "servers"
    · subst h
      rw [show setServers (("servers", v) :: kvs) xs
          = ("servers", Yaml.arr xs) :: setServers kvs xs from by simp [setServers]]
      rw [lookupKey_cons_hit _ _ _ _ (by simp), lookupKey_cons_hit _ _ _ _ (by simp)]
    · have hb : (k == "servers") = false := by simpa using h
      rw [show setServers ((k, v) :: kvs) xs = (k, v) :: setServers kvs xs from by
        simp [setServers, if_neg h]]
      rw [lookupKey_cons_miss _ _ _ _ hb, lookupKey_cons_miss _ _ _ _ hb]
      exact lookupKey_setServers xs kvs

theorem setServers_setServers (xs ys : List Yaml) :
    ∀ kvs : List (String × Yaml),
      setServers (setServers kvs xs) ys = setServers kvs ys
  | [] => rfl
  | (k, v) :: kvs => by
    simp only [setServers, List.map_cons]
    congr 1
    · by_cases h : k = "servers"
      · simp [h]
      · simp [h]
    · exact setServers_setServers xs ys kvs

theorem setServers_absent (xs : List Yaml) :
    ∀ kvs : List (String × Yaml), lookupKey kvs ("servers") = none →
      setServers kvs xs = kvs
  | [], _ => rfl
  | (k, v) :: kvs, h => by
    by_cases hk : k = "servers"
    · subst hk
      rw [lookupKey_cons_hit _ _ _ _ (by simp)] at h
      cases h
    · have hb : (k == "servers") = false := by simpa using hk
      rw [lookupKey_cons_miss _ _ _ _ hb] at h
      simp only [setServers, List.map_cons, if_neg hk]
      exact congrArg (fun t => (k, v) :: t) (setServers_absent xs kvs h)

/-! ### Concrete fixtures used by witnesses and counterexamples -/

/-- Regex oracle finding nothing (a text with no item or entry block). -/
def roEmpty : RegexOracles :=
  { findall_item := fun _ => []
    findall_entry := fun _ => []
    tagtext := fun _ _ => ""
    atom_href := fun _ => "" }

/-- A fixed oracle bundle. -/
def oEx : NormOracles :=
  { parse := fun _ => none
    regex := roEmpty
    yaml_importable := true
    safe_load := fun _ => .error () }

/-- An RSS `<item>` element carrying only a description. -/
def itemElemD (desc : String) : XmlElem :=
  .mk ("item") [] ("") [.mk ("description") [] desc []]

/-- An RSS `<item>` element with a link and a description. -/
def itemElemL (link desc : String) : XmlElem :=
  .mk ("item") [] ("") [.mk ("link") [] link [], .mk ("description") [] desc []]

/-- A minimal RSS document tree around the given items. -/
def chanWith (xs : List XmlElem) : XmlElem :=
  .mk ("rss") [] ("") [.mk ("channel") [] ("") xs]

/-- An Atom entry with a `published` date and a summary but no `updated`. -/
def entryNoUpd : XmlElem :=
  .mk (atomTag ("entry")) [] ("")
    [.mk (atomTag ("published")) [] ("2024-01-02") [],
     .mk (atomTag ("summary")) [] ("s") []]

/-- An Atom entry with only a `content` child. -/
def entryW : XmlElem :=
  .mk (atomTag ("entry")) [] ("") [.mk (atomTag ("content")) [] ("c") []]

/-- The parse of `a: 2024-01-01`: a mapping holding a YAML timestamp, which
`yaml.safe_load` returns as a `datetime.date`. -/
def dateDoc : Yaml := .obj [("a", .date ("2024-01-01"))]

/-- A `yaml.safe_load` oracle returning `dateDoc`. -/
def loadDate : String → Except Unit Yaml := fun _ => .ok dateDoc

/-- A server entry with url `"a"`. -/
def srvA : Yaml := .obj [("url", .str ("a"))]

/-- A server entry with url `"b"`. -/
def srvB : Yaml := .obj [("url", .str ("b"))]

/-- An environment with both a would-be override variable and the repository
slug set. -/
def envOverride : String → Option String := fun v =>
  if v = "BASE_URL" then some ("http://override.example/")
  else if v = "GITHUB_REPOSITORY" then some ("o/r") else none

/-! ### The claims -/

/-- C1 (amended): `normalize_openapi_c14n_v1` returns the input unchanged when
the yaml module is unavailable or `yaml.safe_load` raises; but a failure of
`json.dumps` on the parsed structure (e.g. a YAML timestamp parsed into a
`datetime.date`) is NOT caught — it propagates out of the function instead of
falling back to the original text. -/
theorem claim_c1_amended : ∀ (load : String → Except Unit Yaml) (t : String),
    (∀ e : Unit, load t = .error e → normalize_openapi_c14n_v1 true load t = .ok t)
    ∧ normalize_openapi_c14n_v1 false load t = .ok t
    ∧ (∀ obj : Yaml, load t = .ok obj →
        json_dumps (sortServersStep obj) = .error () →
        normalize_openapi_c14n_v1 true load t = .error ()) := by
  intro load t
  refine ⟨?_, rfl, ?_⟩
  · intro e he
    simp [normalize_openapi_c14n_v1, he]
  · intro obj hobj hdump
    simp [normalize_openapi_c14n_v1, hobj, canonicalizeYaml, hdump, Except.map]

/-- C1 counterexample: on a document whose parse holds a date scalar the
function raises (models the uncaught `TypeError` from `json.dumps`) instead
of returning the original text. -/
theorem claim_c1_counterexample :
    normalize_openapi_c14n_v1 true loadDate ("a: 2024-01-01") = .error ()
    ∧ normalize_openapi_c14n_v1 true loadDate ("a: 2024-01-01") ≠ .ok ("a: 2024-01-01") := by
  constructor
  · rfl
  · intro h
    have h2 : (Except.error () : Except Unit String) = .ok ("a: 2024-01-01") := h
    cases h2

theorem claim_c1_witness :
    normalize_openapi_c14n_v1 true loadDate ("a: 2024-01-01") = .error () :=
  (claim_c1_amended loadDate ("a: 2024-01-01")).2.2 dateDoc rfl rfl

/-- C2 (amended): permuting the `<item>` elements of a well-formed RSS
document leaves the canonical string unchanged PROVIDED the extracted items
have pairwise distinct `(link, id, title)` sort keys; with duplicate keys the
stable sort preserves input order, so reordering can change the output. -/
theorem claim_c2_amended : ∀ (r1 r2 : XmlElem) (bl : Nat),
    (strictItems r1).Perm (strictItems r2) →
    (strictItems r1).Pairwise (fun a b => itemKey a ≠ itemKey b) →
    normalizeParsed r1 bl = normalizeParsed r2 bl := by
  intro r1 r2 bl hp hnd
  unfold normalizeParsed
  rw [show sortItems (strictItems r1) = sortItems (strictItems r2) from
    sortByKey_eq_of_perm itemKey tripleLe tripleLe_total tripleLe_trans
      tripleLe_antisymm hp hnd]

/-- C2 counterexample: two items with identical (empty) link/id/title but
different bodies; swapping them permutes the extracted items yet changes the
canonical string, refuting unconditional order-invariance. -/
theorem claim_c2_counterexample :
    (strictItems (chanWith [itemElemD ("x"), itemElemD ("y")])).Perm
      (strictItems (chanWith [itemElemD ("y"), itemElemD ("x")]))
    ∧ normalizeParsed (chanWith [itemElemD ("x"), itemElemD ("y")]) 5000
      ≠ normalizeParsed (chanWith [itemElemD ("y"), itemElemD ("x")]) 5000 := by
  decide

theorem claim_c2_witness :
    normalizeParsed (chanWith [itemElemL ("http://x/2") ("b"), itemElemL ("http://x/1") ("a")]) 5000
    = normalizeParsed (chanWith [itemElemL ("http://x/1") ("a"), itemElemL ("http://x/2") ("b")]) 5000 :=
  claim_c2_amended _ _ 5000 (by decide) (by decide)

/-- C3: normalization is a pure function of `(text, declaredKind)` and the
fixed oracle configuration: two invocations on identical input yield
identical output. -/
theorem claim_c3_deterministic : ∀ (o : NormOracles) (k : NormKind) (t1 t2 : String),
    t1 = t2 → runNormalizer o k t1 = runNormalizer o k t2 := by
  intro o k t1 t2 h
  rw [h]

theorem claim_c3_witness :
    runNormalizer oEx NormKind.rss_min ("<x/>") = runNormalizer oEx NormKind.rss_min ("<x/>") :=
  claim_c3_deterministic oEx NormKind.rss_min ("<x/>") ("<x/>") rfl

/-- C4 (amended): in the well-formed extraction path the Atom `date` field is
the (whitespace-normalized) text of the first `atom:updated` child and is
empty when `updated` is absent — `atom:published` is never consulted there
(only the regex fallback falls back to `published`); the body does fall back
to `content` when `summary` is absent. -/
theorem claim_c4_amended : ∀ e : XmlElem,
    (e.children.find? (fun c => c.tag == atomTag ("updated")) = none →
      (atomEntryOf e).date = "")
    ∧ (∀ u : XmlElem, e.children.find? (fun c => c.tag == atomTag ("updated")) = some u →
      (atomEntryOf e).date = _norm_ws u.text)
    ∧ (e.children.find? (fun c => c.tag == atomTag ("summary")) = none →
      (atomEntryOf e).body = _norm_ws (findtextD e (atomTag ("content")) (""))) := by
  intro e
  refine ⟨?_, ?_, ?_⟩
  · intro h
    show _norm_ws (findtextD e (atomTag ("updated")) ("")) = ""
    unfold findtextD
    rw [h]
    rfl
  · intro u hu
    show _norm_ws (findtextD e (atomTag ("updated")) ("")) = _norm_ws u.text
    unfold findtextD
    rw [hu]
  · intro h
    show _norm_ws (pyOr (findtextD e (atomTag ("summary")) (""))
        (pyOr (findtextD e (atomTag ("content")) ("")) (""))) = _
    unfold findtextD
    rw [h]
    by_cases hX : (match e.children.find? (fun c => c.tag == atomTag ("content")) with
        | some c => c.text
        | none => "") = "" <;>
      simp [pyOr, hX]

/-- C4 counterexample: an entry with `published` but no `updated`: the
well-formed path extracts an empty date, not the published date the claim
predicts. -/
theorem claim_c4_counterexample :
    (atomEntryOf entryNoUpd).date = ""
    ∧ findtextD entryNoUpd (atomTag ("published")) ("") = "2024-01-02"
    ∧ (atomEntryOf entryNoUpd).date
      ≠ _norm_ws (findtextD entryNoUpd (atomTag ("published")) ("")) := by
  decide

theorem claim_c4_witness :
    (atomEntryOf entryW).date = ""
    ∧ (atomEntryOf entryW).body = _norm_ws (findtextD entryW (atomTag ("content")) ("")) :=
  ⟨(claim_c4_amended entryW).1 (by rfl), (claim_c4_amended entryW).2.2 (by rfl)⟩

/-- C5: with the default limit 5000, a body of exactly 5000 characters is
kept whole, a body of 5001 characters is cut to its first 5000 characters,
and the truncation is always a hard prefix cut (no marker appended). -/
theorem claim_c5_truncation : ∀ b1 b2 : String, b1.length = 5000 → b2.length = 5001 →
    truncBody 5000 b1 = b1
    ∧ (truncBody 5000 b2).data = b2.data.take 5000
    ∧ (truncBody 5000 b2).length = 5000
    ∧ (∀ b : String, ∃ t : List Char, b.data = (truncBody 5000 b).data ++ t) := by
  intro b1 b2 h1 h2
  have hne1 : b1 ≠ "" := by
    intro hb
    rw [hb] at h1
    exact absurd h1 (by decide)
  have hne2 : b2 ≠ "" := by
    intro hb
    rw [hb] at h2
    exact absurd h2 (by decide)
  refine ⟨?_, ?_, ?_, ?_⟩
  · unfold truncBody
    rw [if_pos ⟨by decide, hne1⟩]
    have hd : b1.data.take 5000 = b1.data :=
      List.take_of_length_le (le_of_eq h1)
    rw [hd]
  · unfold truncBody
    rw [if_pos ⟨by decide, hne2⟩]
  · unfold truncBody
    rw [if_pos ⟨by decide, hne2⟩]
    show (b2.data.take 5000).length = 5000
    rw [List.length_take]
    rw [show b2.data.length = 5001 from h2]
    omega
  · intro b
    by_cases hb : b = ""
    · subst hb
      exact ⟨[], rfl⟩
    · refine ⟨b.data.drop 5000, ?_⟩
      unfold truncBody
      rw [if_pos ⟨by decide, hb⟩]
      exact (List.take_append_drop 5000 b.data).symm

theorem claim_c5_witness :
    truncBody 5000 (String.mk (List.replicate 5000 ('a'))) = String.mk (List.replicate 5000 ('a'))
    ∧ (truncBody 5000 (String.mk (List.replicate 5001 ('a')))).length = 5000 :=
  ⟨(claim_c5_truncation (String.mk (List.replicate 5000 ('a')))
      (String.mk (List.replicate 5001 ('a')))
      (by show (List.replicate 5000 ('a')).length = 5000; rw [List.length_replicate])
      (by show (List.replicate 5001 ('a')).length = 5001; rw [List.length_replicate])).1,
   (claim_c5_truncation (String.mk (List.replicate 5000 ('a')))
      (String.mk (List.replicate 5001 ('a')))
      (by show (List.replicate 5000 ('a')).length = 5000; rw [List.length_replicate])
      (by show (List.replicate 5001 ('a')).length = 5001; rw [List.length_replicate])).2.2.1⟩

/-- C6: when the top level is a mapping whose `servers` key holds a sequence
of entries with string (or absent) `url` fields, the sequence is sorted by
the tuple `(url or "", str(entry))`; consequently, two documents differing
only in a permutation of such a servers list (with distinct sort keys)
canonicalize identically — in particular `servers: [{url: b}, {url: a}]`
and `servers: [{url: a}, {url: b}]`. -/
theorem claim_c6_servers_sort : ∀ (kvs : List (String × Yaml)) (xs ys : List Yaml),
    xs.Perm ys →
    (∀ s ∈ xs, serverKeyable s = true) →
    xs.Pairwise (fun a b => serverKey a ≠ serverKey b) →
    canonicalizeYaml (.obj (setServers kvs xs)) = canonicalizeYaml (.obj (setServers kvs ys))
    ∧ trySortServers xs = .ok (sortByKey serverKey pairLe xs)
    ∧ (sortByKey serverKey pairLe xs).Pairwise
        (fun a b => pairLe (serverKey a) (serverKey b) = true)
    ∧ (sortByKey serverKey pairLe xs).Perm xs
    ∧ (∀ (load1 load2 : String → Except Unit Yaml) (t1 t2 : String),
        load1 t1 = .ok (.obj (setServers kvs xs)) →
        load2 t2 = .ok (.obj (setServers kvs ys)) →
        normalize_openapi_c14n_v1 true load1 t1 = normalize_openapi_c14n_v1 true load2 t2) := by
  intro kvs xs ys hp hkey hnd
  have hkeyall : xs.all serverKeyable = true :=
    List.all_eq_true.mpr (fun x hx => hkey x hx)
  have hkeyally : ys.all serverKeyable = true :=
    List.all_eq_true.mpr (fun y hy => hkey y (hp.mem_iff.mpr hy))
  have hmain : canonicalizeYaml (.obj (setServers kvs xs))
      = canonicalizeYaml (.obj (setServers kvs ys)) := by
    suffices h : sortServersStep (.obj (setServers kvs xs))
        = sortServersStep (.obj (setServers kvs ys)) by
      unfold canonicalizeYaml
      rw [h]
    unfold sortServersStep
    dsimp only
    rw [lookupKey_setServers xs kvs, lookupKey_setServers ys kvs]
    cases hl : lookupKey kvs ("servers") with
    | none =>
      dsimp only
      rw [setServers_absent xs kvs hl, setServers_absent ys kvs hl]
    | some v =>
      dsimp only
      rw [show trySortServers xs = .ok (sortByKey serverKey pairLe xs) from by
          unfold trySortServers; rw [if_pos hkeyall],
        show trySortServers ys = .ok (sortByKey serverKey pairLe ys) from by
          unfold trySortServers; rw [if_pos hkeyally]]
      dsimp only
      rw [setServers_setServers, setServers_setServers]
      rw [sortByKey_eq_of_perm serverKey pairLe pairLe_total pairLe_trans
        pairLe_antisymm hp hnd]
  refine ⟨hmain, ?_, ?_, ?_, ?_⟩
  · unfold trySortServers
    rw [if_pos hkeyall]
  · exact sortByKey_sorted serverKey pairLe pairLe_total pairLe_trans xs
  · exact sortByKey_perm serverKey pairLe xs
  · intro load1 load2 t1 t2 hl1 hl2
    simp only [normalize_openapi_c14n_v1, Bool.not_true, Bool.false_eq_true, if_false, hl1, hl2]
    exact hmain

theorem claim_c6_witness :
    canonicalizeYaml (.obj (setServers [("servers", Yaml.null)] [srvB, srvA]))
    = canonicalizeYaml (.obj (setServers [("servers", Yaml.null)] [srvA, srvB])) :=
  (claim_c6_servers_sort [("servers", Yaml.null)] [srvB, srvA] [srvA, srvB]
    (List.Perm.swap srvA srvB []) (by decide) (by decide)).1

/-- C7: the regex fallback (a total function of the oracle results) keeps at
most 200 item blocks and at most 200 entry blocks (so at most 400 records),
and when no block is found at all it produces the well-formed empty canonical
string `"\n"`. -/
theorem claim_c7_fallback_bounded : ∀ (ro : RegexOracles) (t : String) (bl : Nat),
    (((ro.findall_item t).take 200).map (fallbackItemOf ro)).length ≤ 200
    ∧ (((ro.findall_entry t).take 200).map (fallbackEntryOf ro)).length ≤ 200
    ∧ (fallbackItems ro t 200).length ≤ 400
    ∧ (ro.findall_item t = [] → ro.findall_entry t = [] →
        _normalize_rss_min_fallback ro t bl 200 = "\n") := by
  intro ro t bl
  have h1 : (((ro.findall_item t).take 200).map (fallbackItemOf ro)).length ≤ 200 := by
    rw [List.length_map]
    exact List.length_take_le 200 _
  have h2 : (((ro.findall_entry t).take 200).map (fallbackEntryOf ro)).length ≤ 200 := by
    rw [List.length_map]
    exact List.length_take_le 200 _
  refine ⟨h1, h2, ?_, ?_⟩
  · unfold fallbackItems
    rw [List.length_append]
    omega
  · intro hi he
    unfold _normalize_rss_min_fallback fallbackItems
    rw [hi, he]
    rfl

theorem claim_c7_witness : _normalize_rss_min_fallback roEmpty ("no blocks here") 5000 200 = "\n" :=
  (claim_c7_fallback_bounded roEmpty ("no blocks here") 5000).2.2.2 rfl rfl

/-- C8 (amended): `guess_base_url` consults only the `GITHUB_REPOSITORY`
variable — there is no override variable; a slug containing `/` maps to
`https://{owner}.github.io/{name}/`, anything else (unset, empty, slashless)
yields `http://localhost/`. -/
theorem claim_c8_amended : ∀ env env2 : String → Option String,
    (env ("GITHUB_REPOSITORY") = env2 ("GITHUB_REPOSITORY") →
      guess_base_url env = guess_base_url env2)
    ∧ (∀ owner name : String, env ("GITHUB_REPOSITORY") = some (owner ++ "/" ++ name) →
        (∀ c ∈ owner.data, c ≠ '/') →
        guess_base_url env = "https://" ++ owner ++ ".github.io/" ++ name ++ "/")
    ∧ (((env ("GITHUB_REPOSITORY")).getD "").data.contains '/' = false →
        guess_base_url env = "http://localhost/") := by
  intro env env2
  refine ⟨?_, ?_, ?_⟩
  · intro h
    unfold guess_base_url
    rw [h]
  · intro owner name hrepo hns
    have hdata : (owner ++ "/" ++ name).data = owner.data ++ ('/' :: name.data) := by
      rw [data_append, data_append]
      simp
    unfold guess_base_url
    rw [hrepo]
    simp only [Option.getD_some]
    have hcond : (owner ++ "/" ++ name) ≠ "" ∧ ((owner ++ "/" ++ name)).data.contains '/' := by
      constructor
      · intro hx
        have hx2 := congrArg String.data hx
        rw [hdata] at hx2
        simp at hx2
      · rw [hdata]
        simp
    rw [if_pos hcond, splitFirstSlash_eq owner name hns]
  · intro h
    have hn : ¬(((env ("GITHUB_REPOSITORY")).getD "") ≠ ""
        ∧ ((env ("GITHUB_REPOSITORY")).getD "").data.contains '/') := by
      intro hc
      have h2 := hc.2
      rw [h] at h2
      cases h2
    unfold guess_base_url
    rw [if_neg hn]

/-- C8 counterexample: with both a would-be override variable and the
repository slug set, the result follows the slug and ignores the override —
the claimed override precedence does not exist in the code. -/
theorem claim_c8_counterexample :
    envOverride ("BASE_URL") = some ("http://override.example/")
    ∧ guess_base_url envOverride = "https://o.github.io/r/"
    ∧ guess_base_url envOverride ≠ "http://override.example/" := by
  decide

theorem claim_c8_witness :
    guess_base_url envOverride = "https://" ++ "o" ++ ".github.io/" ++ "r" ++ "/" :=
  (claim_c8_amended envOverride envOverride).2.1 ("o") ("r") (by decide) (by decide)

/-- C9: `cdata_wrap` first strips the XML-1.0-illegal control characters and
splits every interior `]]>` across two CDATA sections: reading the wrapped
output back as a sequence of CDATA sections (each ending at the first `]]>`)
consumes it completely and recovers exactly the sanitized body. -/
theorem claim_c9_cdata_safe : ∀ s : String,
    parseCData ((cdata_wrap s).data) = some ((sanitize_xml_10 s).data)
    ∧ (∀ c ∈ (sanitize_xml_10 s).data, ctrlForbidden c = false) := by
  intro s
  constructor
  · rw [cdata_wrap_data, ← splitTerm_repl]
    rw [parse_sections (splitTerm (sanitize_xml_10 s).data)
        (by
          obtain ⟨p, ps, hx⟩ := splitTerm_ne_nil (sanitize_xml_10 s).data
          rw [hx]
          intro hc
          cases hc)
        (splitTerm_clean _)]
    rw [splitTerm_join]
  · intro c hc
    unfold sanitize_xml_10 at hc
    by_cases hs : s = ""
    · rw [if_pos hs] at hc
      simp at hc
    · rw [if_neg hs] at hc
      have hmem : c ∈ s.data.filter (fun c => !ctrlForbidden c) := hc
      have := List.of_mem_filter hmem
      simpa using this

theorem claim_c9_witness :
    parseCData ((cdata_wrap ("a]]>b\x01")).data)
      = some ((sanitize_xml_10 ("a]]>b\x01")).data) :=
  (claim_c9_cdata_safe ("a]]>b\x01")).1

/-- C10: for every input and parse outcome, `normalize_rss_min` produces a
string ending in exactly one newline, and the serialization of an empty item
list is exactly `"\n"`. -/
theorem claim_c10_trailing_newline :
    ∀ (parse : String → Option XmlElem) (ro : RegexOracles) (t : String) (bl : Nat),
    (normalize_rss_min parse ro t bl).data.getLast? = some '\n'
    ∧ (normalize_rss_min parse ro t bl).data.dropLast.getLast? ≠ some '\n'
    ∧ renderItems [] bl = "\n" := by
  intro parse ro t bl
  have hshape : ∃ items, normalize_rss_min parse ro t bl = renderItems items bl := by
    unfold normalize_rss_min _normalize_rss_min_fallback
    cases parse t with
    | some root => exact ⟨sortItems (strictItems root), rfl⟩
    | none =>
      cases parse (_clean_xml_for_et t) with
      | some root => exact ⟨sortItems (strictItems root), rfl⟩
      | none => exact ⟨sortItems (fallbackItems ro t 200), rfl⟩
  obtain ⟨items, hit⟩ := hshape
  rw [hit]
  exact ⟨(renderItems_newline items bl).1, (renderItems_newline items bl).2,
    renderItems_nil bl⟩

theorem claim_c10_witness :
    (normalize_rss_min (fun _ => none) roEmpty ("") 5000).data.getLast? = some '\n' :=
  (claim_c10_trailing_newline (fun _ => none) roEmpty ("") 5000).1
